import Mathlib

/-!
Verification of the `corresponding-rs` code generator.

The development shallowly embeds the generator found in
`corresponding-macros/src/lib.rs`:

* a model of the fragment of the `syn` syntax tree that the generator
  inspects (`Ty`, `PathSegment`, `PathArguments`, `GenericArgument`,
  `TokenTree`, `Attribute`, `Field'`, `ItemStruct`, `Item`);
* the shape classifier `get_type`;
* the statement synthesis of `generate_move_corresponding_impl`,
  the capability detection `has_default_derive`, the secondary routine
  `generate_from_impl`, and the driver `derive_corresponding`;
* a small operational semantics for the four generated statement forms,
  used to prove the runtime contracts of the generated routines.
-/

/-! ## Syntax model (the fragment of `syn` the generator inspects) -/

mutual

/-- Model of `syn::Type`: either a path type (a list of path segments) or any
other type form (tuple, reference, function, ...), which the classifier
cannot decompose. -/
inductive Ty : Type where
  | path (segments : List PathSegment) : Ty
  | other : Ty

/-- Model of `syn::PathSegment`: an identifier together with its path
arguments. -/
inductive PathSegment : Type where
  | mk (ident : String) (arguments : PathArguments) : PathSegment

/-- Model of `syn::PathArguments`. -/
inductive PathArguments : Type where
  | none : PathArguments
  | angleBracketed (args : List GenericArgument) : PathArguments
  | parenthesized : PathArguments

/-- Model of `syn::GenericArgument`: a type argument, or any other kind of
argument (lifetime, const, binding, ...). -/
inductive GenericArgument : Type where
  | type (ty : Ty) : GenericArgument
  | other : GenericArgument

end

/-- Identifier of a path segment. -/
def PathSegment.ident : PathSegment → String
  | .mk i _ => i

/-- Arguments of a path segment. -/
def PathSegment.arguments : PathSegment → PathArguments
  | .mk _ a => a

/-- Model of `proc_macro2::TokenTree`, as far as `has_default_derive`
inspects it: groups, identifiers, and all other token kinds. -/
inductive TokenTree : Type where
  | group (stream : List TokenTree) : TokenTree
  | ident (s : String) : TokenTree
  | other : TokenTree

/-- Model of `syn::Attribute`: a path plus the raw token stream. -/
structure Attribute' where
  path : List PathSegment
  tokens : List TokenTree

/-- Model of `syn::Field`: an optional identifier (named-struct fields carry
`some`, tuple-struct fields carry `none`) and a type. -/
structure Field' where
  ident : Option String
  ty : Ty

/-- Model of `syn::ItemStruct`, restricted to the components the generator
reads or compares: identifier, attached attributes and fields. -/
structure ItemStruct where
  ident : String
  attrs : List Attribute'
  fields : List Field'

/-- Model of `syn::Item`: a struct item, or any other item kind. -/
inductive Item : Type where
  | struct (itemStruct : ItemStruct) : Item
  | other : Item

/-! ## Structural equality

`derive_corresponding` guards the pair loop with `l != r`, which is the
(derived) structural equality of `syn::ItemStruct`.  The model spells the
corresponding boolean equality out; only reflexivity and the fact that
equal structs share an identifier are needed in the proofs. -/

mutual

/-- Structural equality on `Ty`. -/
def tyBeq : Ty → Ty → Bool
  | .path s1, .path s2 => segsBeq s1 s2
  | .other, .other => true
  | _, _ => false

/-- Structural equality on lists of path segments. -/
def segsBeq : List PathSegment → List PathSegment → Bool
  | [], [] => true
  | s :: ss, t :: ts => segBeq s t && segsBeq ss ts
  | _, _ => false

/-- Structural equality on path segments. -/
def segBeq : PathSegment → PathSegment → Bool
  | .mk i1 a1, .mk i2 a2 => i1 == i2 && argsBeq a1 a2

/-- Structural equality on path arguments. -/
def argsBeq : PathArguments → PathArguments → Bool
  | .none, .none => true
  | .angleBracketed g1, .angleBracketed g2 => gargsBeq g1 g2
  | .parenthesized, .parenthesized => true
  | _, _ => false

/-- Structural equality on lists of generic arguments. -/
def gargsBeq : List GenericArgument → List GenericArgument → Bool
  | [], [] => true
  | g :: gs, h :: hs => gargBeq g h && gargsBeq gs hs
  | _, _ => false

/-- Structural equality on generic arguments. -/
def gargBeq : GenericArgument → GenericArgument → Bool
  | .type t1, .type t2 => tyBeq t1 t2
  | .other, .other => true
  | _, _ => false

end

mutual

/-- Structural equality on token trees. -/
def tokenTreeBeq : TokenTree → TokenTree → Bool
  | .group s1, .group s2 => tokenTreesBeq s1 s2
  | .ident a, .ident b => a == b
  | .other, .other => true
  | _, _ => false

/-- Structural equality on token streams. -/
def tokenTreesBeq : List TokenTree → List TokenTree → Bool
  | [], [] => true
  | t :: ts, u :: us => tokenTreeBeq t u && tokenTreesBeq ts us
  | _, _ => false

end

/-- Pointwise equality of two lists under an element comparison. -/
def listBeq (f : α → α → Bool) : List α → List α → Bool
  | [], [] => true
  | a :: as', b :: bs' => f a b && listBeq f as' bs'
  | _, _ => false

/-- Structural equality on attributes. -/
def attributeBeq (a b : Attribute') : Bool :=
  listBeq segBeq a.path b.path && listBeq tokenTreeBeq a.tokens b.tokens

/-- Structural equality on fields. -/
def fieldBeq (a b : Field') : Bool :=
  a.ident == b.ident && tyBeq a.ty b.ty

/-- Structural equality on struct items, mirroring the derived `PartialEq`
used by the `l != r` guard in `derive_corresponding`. -/
def structBeq (a b : ItemStruct) : Bool :=
  a.ident == b.ident && listBeq attributeBeq a.attrs b.attrs
    && listBeq fieldBeq a.fields b.fields

mutual

theorem tyBeq_refl : ∀ t : Ty, tyBeq t t = true
  | .path segs => by rw [tyBeq]; exact segsBeq_refl segs
  | .other => by rw [tyBeq]

theorem segsBeq_refl : ∀ ss : List PathSegment, segsBeq ss ss = true
  | [] => by rw [segsBeq]
  | s :: ss => by rw [segsBeq, segBeq_refl s, segsBeq_refl ss]; rfl

theorem segBeq_refl : ∀ s : PathSegment, segBeq s s = true
  | .mk i a => by rw [segBeq, argsBeq_refl a]; simp

theorem argsBeq_refl : ∀ a : PathArguments, argsBeq a a = true
  | .none => by rw [argsBeq]
  | .angleBracketed gs => by rw [argsBeq]; exact gargsBeq_refl gs
  | .parenthesized => by rw [argsBeq]

theorem gargsBeq_refl : ∀ gs : List GenericArgument, gargsBeq gs gs = true
  | [] => by rw [gargsBeq]
  | g :: gs => by rw [gargsBeq, gargBeq_refl g, gargsBeq_refl gs]; rfl

theorem gargBeq_refl : ∀ g : GenericArgument, gargBeq g g = true
  | .type t => by rw [gargBeq]; exact tyBeq_refl t
  | .other => by rw [gargBeq]

end

mutual

theorem tokenTreeBeq_refl : ∀ t : TokenTree, tokenTreeBeq t t = true
  | .group s => by rw [tokenTreeBeq]; exact tokenTreesBeq_refl s
  | .ident a => by rw [tokenTreeBeq]; simp
  | .other => by rw [tokenTreeBeq]

theorem tokenTreesBeq_refl : ∀ ts : List TokenTree, tokenTreesBeq ts ts = true
  | [] => by rw [tokenTreesBeq]
  | t :: ts => by rw [tokenTreesBeq, tokenTreeBeq_refl t, tokenTreesBeq_refl ts]; rfl

end

theorem listBeq_refl {f : α → α → Bool} (hf : ∀ a, f a a = true) :
    ∀ l : List α, listBeq f l l = true
  | [] => by rw [listBeq]
  | a :: as' => by rw [listBeq, hf a, listBeq_refl hf as']; rfl

theorem attributeBeq_refl (a : Attribute') : attributeBeq a a = true := by
  rw [attributeBeq, listBeq_refl segBeq_refl, listBeq_refl tokenTreeBeq_refl]; rfl

theorem fieldBeq_refl (a : Field') : fieldBeq a a = true := by
  rw [fieldBeq, tyBeq_refl]; simp

theorem structBeq_refl (a : ItemStruct) : structBeq a a = true := by
  rw [structBeq, listBeq_refl attributeBeq_refl, listBeq_refl fieldBeq_refl]; simp

theorem structBeq_ident {a b : ItemStruct} (h : structBeq a b = true) :
    a.ident = b.ident := by
  rw [structBeq] at h
  simpa using (Bool.and_elim_left (Bool.and_elim_left h))

/-! ## The shape classifier `get_type` -/

/-- Model of the `OptionType` struct of `corresponding-macros`. -/
structure OptionType where
  ident : String
  option : Bool
deriving DecidableEq

/-- Shallow embedding of `get_type` from `corresponding-macros/src/lib.rs`.
For a path type it inspects the first path segment: when that segment is
named `Option` it requires angle-bracketed arguments whose first argument is
a path type, and returns the identifier of the first segment of that inner
path with `option := true`; when the first segment has any other name it
returns that identifier with `option := false`; in every remaining case it
returns `none`. -/
def get_type : Ty → Option OptionType
  | .path segments =>
    match segments.head? with
    | some segment =>
      if segment.ident == "Option" then
        match segment.arguments with
        | .angleBracketed args =>
          match args.head? with
          | some (.type (.path segments2)) =>
            match segments2.head? with
            | some segment2 => some ⟨segment2.ident, true⟩
            | none => none
          | _ => none
        | _ => none
      else
        some ⟨segment.ident, false⟩
    | none => none
  | .other => none

/-! ## Statement synthesis -/

/-- The four statement forms that `generate_move_corresponding_impl` can
emit, with the identifiers of the left and right field interpolated:

* `assign lf rf` models `self.lf = rhs.rf ;`
* `assignSome lf rf` models `self.lf = Some ( rhs.rf ) ;`
* `ifLetAssign lf rf` models `if let Some ( r ) = rhs.rf { self.lf = r } ;`
* `ifSomeAssign lf rf` models `if rhs.rf .is_some() { self.lf = rhs.rf } ;`
-/
inductive Stmt : Type where
  | assign (lf rf : Option String) : Stmt
  | assignSome (lf rf : Option String) : Stmt
  | ifLetAssign (lf rf : Option String) : Stmt
  | ifSomeAssign (lf rf : Option String) : Stmt
deriving DecidableEq

/-- Body of the nested field loop of `generate_move_corresponding_impl`:
the statements pushed for one candidate field pair `(l_field, r_field)`.
Both types must classify, the field identifiers and the classified base
identifiers must agree, and then the `(option, option)` pair selects the
policy. -/
def field_statements (l_field r_field : Field') : List Stmt :=
  match get_type l_field.ty with
  | some l_type =>
    match get_type r_field.ty with
    | some r_type =>
      if l_field.ident == r_field.ident && l_type.ident == r_type.ident then
        match l_type.option, r_type.option with
        | false, false => [.assign l_field.ident r_field.ident]
        | true, false => [.assignSome l_field.ident r_field.ident]
        | false, true => [.ifLetAssign l_field.ident r_field.ident]
        | true, true => [.ifSomeAssign l_field.ident r_field.ident]
      else []
    | none => []
  | none => []

/-- The statement list built by `generate_move_corresponding_impl`: the
outer loop runs over the fields of `l`, the inner loop over the fields of
`r`, in declaration order, appending the statements of every candidate
pair. -/
def generate_statements (l r : ItemStruct) : List Stmt :=
  l.fields.flatMap fun l_field =>
    r.fields.flatMap fun r_field => field_statements l_field r_field

/-- A generated item: either a `MoveCorresponding` implementation (with the
target identifier, the source identifier and the statement list of its
`move_corresponding` body) or a `From` implementation (target and source
identifiers; its fixed body is modelled by `from_run` below). -/
inductive GenItem : Type where
  | moveImpl (l r : String) (statements : List Stmt) : GenItem
  | fromImpl (l r : String) : GenItem
deriving DecidableEq

/-- Shallow embedding of `generate_move_corresponding_impl`: the generated
`impl MoveCorresponding<R> for L`, reduced to the data the claims are
about. -/
def generate_move_corresponding_impl (l r : ItemStruct) : GenItem :=
  .moveImpl l.ident r.ident (generate_statements l r)

/-- Shallow embedding of `has_default_derive`: scan every attribute of the
struct; for an attribute whose first path segment is named `derive`, scan
the top-level groups of its token stream for an identifier token spelled
`Default`. -/
def has_default_derive (l : ItemStruct) : Bool :=
  l.attrs.any fun attr =>
    match attr.path.head? with
    | some seg =>
      seg.ident == "derive" &&
        attr.tokens.any fun token_tree =>
          match token_tree with
          | .group stream =>
            stream.any fun token_tree2 =>
              match token_tree2 with
              | .ident i => i == "Default"
              | _ => false
          | _ => false
    | none => false

/-- Shallow embedding of `generate_from_impl`: the generated
`impl From<R> for L`. -/
def generate_from_impl (l r : ItemStruct) : GenItem :=
  .fromImpl l.ident r.ident

/-- Shallow embedding of `get_structs`: keep the struct items of the
module, in order. -/
def get_structs (items : List Item) : List ItemStruct :=
  items.filterMap fun item =>
    match item with
    | .struct item_struct => some item_struct
    | .other => none

/-- Shallow embedding of the item generation of `derive_corresponding`:
for every ordered pair `(l, r)` of structs of the module with `l != r`
(structural inequality), push the `MoveCorresponding` implementation, and
additionally the `From` implementation when `l` derives `Default`. -/
def derive_corresponding (items : List Item) : List GenItem :=
  let structs := get_structs items
  structs.flatMap fun l =>
    structs.flatMap fun r =>
      if structBeq l r = false then
        generate_move_corresponding_impl l r ::
          (if has_default_derive l then [generate_from_impl l r] else [])
      else []

/-! ## Operational semantics of the generated routines

A struct value assigns to every field identifier a runtime value: either a
plain value or an optional value.  Payloads are modelled opaquely by `Nat`.
The four statement forms mutate the target struct value exactly as the
quoted Rust statements do; the fall-through cases of the conditional
statements on a plain value, and the unwrap of `assignSome` on an optional
value, are unreachable for inputs that agree with the classified shapes
(the Rust compiler rejects the generated code otherwise). -/

/-- Runtime value of one field. -/
inductive FieldVal : Type where
  | plain (v : Nat) : FieldVal
  | opt (v : Option Nat) : FieldVal
deriving DecidableEq

/-- Plain payload of a field value. -/
def FieldVal.plainVal : FieldVal → Nat
  | .plain v => v
  | .opt _ => 0

/-- A struct value: one runtime value per field identifier. -/
abbrev StructVal := Option String → FieldVal

/-- Update one field of a struct value. -/
def updateVal (s : StructVal) (k : Option String) (v : FieldVal) : StructVal :=
  fun n => if n = k then v else s n

/-- Execute one generated statement: `rhs` is the source struct value, `s`
the current target struct value. -/
def execStmt (rhs s : StructVal) : Stmt → StructVal
  | .assign lf rf => updateVal s lf (rhs rf)
  | .assignSome lf rf => updateVal s lf (.opt (some (rhs rf).plainVal))
  | .ifLetAssign lf rf =>
    match rhs rf with
    | .opt (some v) => updateVal s lf (.plain v)
    | _ => s
  | .ifSomeAssign lf rf =>
    match rhs rf with
    | .opt (some _) => updateVal s lf (rhs rf)
    | _ => s

/-- Execute a statement list in order. -/
def execStmts (rhs s : StructVal) (stmts : List Stmt) : StructVal :=
  stmts.foldl (execStmt rhs) s

/-- Run the generated `move_corresponding` routine for the pair `(l, r)`
on target value `s` and source value `rhs`. -/
def move_corresponding_run (l r : ItemStruct) (s rhs : StructVal) : StructVal :=
  execStmts rhs s (generate_statements l r)

/-- Run the generated `From` routine for the pair `(l, r)`: construct the
default instance of `l` (supplied as `dflt`, since default values live
outside the generator) and move the corresponding fields of `rhs` into
it. -/
def from_run (l r : ItemStruct) (dflt rhs : StructVal) : StructVal :=
  move_corresponding_run l r dflt rhs

/-! ## Execution lemmas -/

/-- The field identifier a statement writes to. -/
def Stmt.target : Stmt → Option String
  | .assign lf _ => lf
  | .assignSome lf _ => lf
  | .ifLetAssign lf _ => lf
  | .ifSomeAssign lf _ => lf

/-- Effect of a statement on the value of its own target field. -/
def stmtEffect (rhs : StructVal) (v : FieldVal) : Stmt → FieldVal
  | .assign _ rf => rhs rf
  | .assignSome _ rf => .opt (some (rhs rf).plainVal)
  | .ifLetAssign _ rf =>
    match rhs rf with
    | .opt (some w) => .plain w
    | _ => v
  | .ifSomeAssign _ rf =>
    match rhs rf with
    | .opt (some _) => rhs rf
    | _ => v

/-- Accumulated effect of a statement list on one field value. -/
def runAt (rhs : StructVal) (v : FieldVal) (stmts : List Stmt) : FieldVal :=
  stmts.foldl (stmtEffect rhs) v

theorem execStmt_apply (rhs s : StructVal) (st : Stmt) (n : Option String) :
    execStmt rhs s st n = if n = st.target then stmtEffect rhs (s n) st else s n := by
  cases st with
  | assign lf rf => simp [execStmt, updateVal, stmtEffect, Stmt.target]
  | assignSome lf rf => simp [execStmt, updateVal, stmtEffect, Stmt.target]
  | ifLetAssign lf rf =>
    rcases h : rhs rf with v | ov
    · simp [execStmt, updateVal, stmtEffect, Stmt.target, h]
    · cases ov <;> simp [execStmt, updateVal, stmtEffect, Stmt.target, h]
  | ifSomeAssign lf rf =>
    rcases h : rhs rf with v | ov
    · simp [execStmt, updateVal, stmtEffect, Stmt.target, h]
    · cases ov <;> simp [execStmt, updateVal, stmtEffect, Stmt.target, h]


/-- The value of field `n` after a run is the accumulated effect of the
statements that target `n`; statements targeting other fields do not
interfere. -/
theorem execStmts_apply (stmts : List Stmt) (rhs s : StructVal) (n : Option String) :
    execStmts rhs s stmts n
      = runAt rhs (s n) (stmts.filter fun st => st.target == n) := by
  induction stmts generalizing s with
  | nil => rfl
  | cons st stmts ih =>
    rw [execStmts, List.foldl_cons]
    rw [show List.foldl (execStmt rhs) (execStmt rhs s st) stmts
          = execStmts rhs (execStmt rhs s st) stmts from rfl, ih]
    rw [execStmt_apply]
    by_cases h : st.target = n
    · have hfilter : (st :: stmts).filter (fun st => st.target == n)
          = st :: stmts.filter (fun st => st.target == n) := by
        simp [List.filter_cons, h]
      rw [if_pos h.symm, hfilter]
      rfl
    · have hfilter : (st :: stmts).filter (fun st => st.target == n)
          = stmts.filter (fun st => st.target == n) := by
        simp [List.filter_cons, h]
      rw [if_neg (fun hn => h hn.symm), hfilter]

theorem runAt_nil (rhs : StructVal) (v : FieldVal) : runAt rhs v [] = v := rfl

theorem runAt_single (rhs : StructVal) (v : FieldVal) (st : Stmt) :
    runAt rhs v [st] = stmtEffect rhs v st := rfl

/-! ## Structure of the synthesized statement list -/

/-- Every statement pushed for a candidate pair targets the left field. -/
theorem field_statements_target (lf rf : Field') :
    ∀ st ∈ field_statements lf rf, st.target = lf.ident := by
  intro st hst
  unfold field_statements at hst
  split at hst
  · split at hst
    · split at hst
      · split at hst <;> (simp at hst; simp [hst, Stmt.target])
      · simp at hst
    · simp at hst
  · simp at hst

/-- No statement is pushed for a pair whose field identifiers differ. -/
theorem field_statements_ident_ne {lf rf : Field'} (h : lf.ident ≠ rf.ident) :
    field_statements lf rf = [] := by
  unfold field_statements
  split
  · split
    · rw [if_neg (by simp [h])]
    · rfl
  · rfl

/-- A pushed statement certifies that both types classify, the field
identifiers agree, and the classified base identifiers agree. -/
theorem field_statements_nonempty {lf rf : Field'} {st : Stmt}
    (hst : st ∈ field_statements lf rf) :
    ∃ lt rt, get_type lf.ty = some lt ∧ get_type rf.ty = some rt ∧
      lf.ident = rf.ident ∧ lt.ident = rt.ident := by
  unfold field_statements at hst
  split at hst
  case _ lt hl =>
    split at hst
    case _ rt hr =>
      split at hst
      case isTrue hc =>
        exact ⟨lt, rt, hl, hr, beq_iff_eq.mp (Bool.and_elim_left hc),
          beq_iff_eq.mp (Bool.and_elim_right hc)⟩
      case isFalse hc => simp at hst
    case _ => simp at hst
  case _ => simp at hst

/-- The statements pushed for one candidate field pair when both sides
classify with the same base identifier and both field identifiers are
`some n`: exactly the policy statement selected by the two optionality
flags. -/
theorem field_statements_of_match {lf rf : Field'} {n t : String} {lo ro : Bool}
    (hlf : lf.ident = some n) (hrf : rf.ident = some n)
    (hl : get_type lf.ty = some ⟨t, lo⟩) (hr : get_type rf.ty = some ⟨t, ro⟩) :
    field_statements lf rf
      = [match lo, ro with
         | false, false => Stmt.assign (some n) (some n)
         | true, false => Stmt.assignSome (some n) (some n)
         | false, true => Stmt.ifLetAssign (some n) (some n)
         | true, true => Stmt.ifSomeAssign (some n) (some n)] := by
  cases lo <;> cases ro <;>
    simp [field_statements, hl, hr, hlf, hrf]

/-- Every statement of the inner loop over `R` targets the left field. -/
theorem inner_flatMap_target (lf : Field') (R : List Field') :
    ∀ st ∈ R.flatMap fun r_field => field_statements lf r_field,
      st.target = lf.ident := by
  intro st hst
  rcases List.mem_flatMap.mp hst with ⟨rf, _, hmem⟩
  exact field_statements_target lf rf st hmem

/-- When the fields of `R` have pairwise distinct identifiers and `rf` is
the member of `R` whose identifier is `some n`, the inner loop for a left
field named `some n` pushes exactly the statements of the pair
`(lf, rf)`. -/
theorem inner_flatMap_eq {lf : Field'} {n : String} (hlf : lf.ident = some n) :
    ∀ (R : List Field') (rf : Field'), rf ∈ R → (R.map Field'.ident).Nodup →
      rf.ident = some n →
      (R.flatMap fun r_field => field_statements lf r_field)
        = field_statements lf rf := by
  intro R
  induction R with
  | nil => intro rf h; simp at h
  | cons x R ih =>
    intro rf hmem hN hrf
    rw [List.map_cons, List.nodup_cons] at hN
    rcases List.mem_cons.mp hmem with rfl | hmem'
    · rw [List.flatMap_cons]
      have hrest : (R.flatMap fun r_field => field_statements lf r_field) = [] := by
        refine List.flatMap_eq_nil_iff.mpr fun b hb => ?_
        refine field_statements_ident_ne ?_
        rw [hlf, ← hrf]
        intro heq
        exact hN.1 (List.mem_map.mpr ⟨b, hb, heq.symm⟩)
      rw [hrest, List.append_nil]
    · have hx : field_statements lf x = [] := by
        refine field_statements_ident_ne ?_
        rw [hlf]
        intro heq
        refine hN.1 ?_
        rw [← heq, ← hrf]
        exact List.mem_map.mpr ⟨rf, hmem', rfl⟩
      rw [List.flatMap_cons, hx, List.nil_append]
      exact ih rf hmem' hN.2 hrf

/-- Outer loop auxiliary: filtering the statements of the whole nested loop
down to the writes of field `n` keeps exactly the statements of the unique
matched pair at that name. -/
theorem outer_filter_aux (R : List Field') (rf : Field') (n : String)
    (hrf : rf ∈ R) (hNr : (R.map Field'.ident).Nodup) (hrfn : rf.ident = some n) :
    ∀ (L : List Field') (lf : Field'), lf ∈ L → (L.map Field'.ident).Nodup →
      lf.ident = some n →
      (L.flatMap fun l_field =>
          R.flatMap fun r_field => field_statements l_field r_field).filter
          (fun st => st.target == some n)
        = field_statements lf rf := by
  intro L
  induction L with
  | nil => intro lf h; simp at h
  | cons x L ih =>
    intro lf hmem hNl hlfn
    rw [List.map_cons, List.nodup_cons] at hNl
    rw [List.flatMap_cons, List.filter_append]
    rcases List.mem_cons.mp hmem with rfl | hmem'
    · have hkeep :
          (R.flatMap fun r_field => field_statements lf r_field).filter
              (fun st => st.target == some n)
            = R.flatMap fun r_field => field_statements lf r_field := by
        refine List.filter_eq_self.mpr fun st hst => ?_
        rw [inner_flatMap_target lf R st hst, hlfn]
        exact beq_self_eq_true _
      have hrest :
          (L.flatMap fun a =>
              R.flatMap fun r_field => field_statements a r_field).filter
              (fun st => st.target == some n) = [] := by
        refine List.filter_eq_nil_iff.mpr fun st hst => ?_
        rcases List.mem_flatMap.mp hst with ⟨a, ha, hsta⟩
        rw [inner_flatMap_target a R st hsta]
        simp only [beq_iff_eq]
        intro heq
        refine hNl.1 ?_
        rw [hlfn, ← heq]
        exact List.mem_map.mpr ⟨a, ha, rfl⟩
      rw [hkeep, hrest, List.append_nil]
      exact inner_flatMap_eq hlfn R rf hrf hNr hrfn
    · have hx :
          (R.flatMap fun r_field => field_statements x r_field).filter
              (fun st => st.target == some n) = [] := by
        refine List.filter_eq_nil_iff.mpr fun st hst => ?_
        rw [inner_flatMap_target x R st hst]
        simp only [beq_iff_eq]
        intro heq
        refine hNl.1 ?_
        rw [heq, ← hlfn]
        exact List.mem_map.mpr ⟨lf, hmem', rfl⟩
      rw [hx, List.nil_append]
      exact ih lf hmem' hNl.2 hlfn

/-- Filtering the full synthesized routine body down to the statements that
write field `n` yields exactly the statements of the unique matched pair
`(lf, rf)` at that name, provided field identifiers are unique on both
sides. -/
theorem generate_statements_filter {l r : ItemStruct} {lf rf : Field'} {n : String}
    (hlf : lf ∈ l.fields) (hrf : rf ∈ r.fields)
    (hNl : (l.fields.map Field'.ident).Nodup)
    (hNr : (r.fields.map Field'.ident).Nodup)
    (hlfn : lf.ident = some n) (hrfn : rf.ident = some n) :
    (generate_statements l r).filter (fun st => st.target == some n)
      = field_statements lf rf := by
  rw [generate_statements]
  exact outer_filter_aux r.fields rf n hrf hNr hrfn l.fields lf hlf hNl hlfn

/-- The value of field `n` of the target after a run of the generated
routine, for the unique matched pair named `n`: the effect of the single
policy statement of that pair. -/
theorem move_corresponding_run_at {l r : ItemStruct} {lf rf : Field'} {n : String}
    (hlf : lf ∈ l.fields) (hrf : rf ∈ r.fields)
    (hNl : (l.fields.map Field'.ident).Nodup)
    (hNr : (r.fields.map Field'.ident).Nodup)
    (hlfn : lf.ident = some n) (hrfn : rf.ident = some n)
    (s rhs : StructVal) :
    move_corresponding_run l r s rhs (some n)
      = runAt rhs (s (some n)) (field_statements lf rf) := by
  rw [move_corresponding_run, execStmts_apply,
    generate_statements_filter hlf hrf hNl hNr hlfn hrfn]

/-! ## Shape of the generated item list -/

/-- Target and source identifiers of the `MoveCorresponding`
implementations in a generated item list, in emission order. -/
def movePairs (gens : List GenItem) : List (String × String) :=
  gens.filterMap fun g =>
    match g with
    | .moveImpl a b _ => some (a, b)
    | .fromImpl _ _ => none

/-- Target and source identifiers of the `From` implementations in a
generated item list, in emission order. -/
def fromPairs (gens : List GenItem) : List (String × String) :=
  gens.filterMap fun g =>
    match g with
    | .moveImpl _ _ _ => none
    | .fromImpl a b => some (a, b)

/-- Identifier pairs emitted by a doubly nested loop over struct lists,
guarded by structural inequality and a predicate on the left struct. -/
def pairList (p : ItemStruct → Bool) (S T : List ItemStruct) : List (String × String) :=
  S.flatMap fun l =>
    T.flatMap fun r =>
      if structBeq l r = false then
        (if p l = true then [(l.ident, r.ident)] else [])
      else []

theorem movePairs_derive (items : List Item) :
    movePairs (derive_corresponding items)
      = pairList (fun _ => true) (get_structs items) (get_structs items) := by
  rw [derive_corresponding, movePairs, pairList, List.filterMap_flatMap]
  congr 1
  funext l
  rw [List.filterMap_flatMap]
  congr 1
  funext r
  by_cases hb : structBeq l r = false
  · by_cases hd : has_default_derive l
    · simp [hb, hd, generate_move_corresponding_impl, generate_from_impl]
    · simp [hb, hd, generate_move_corresponding_impl]
  · simp [hb]

theorem fromPairs_derive (items : List Item) :
    fromPairs (derive_corresponding items)
      = pairList has_default_derive (get_structs items) (get_structs items) := by
  rw [derive_corresponding, fromPairs, pairList, List.filterMap_flatMap]
  congr 1
  funext l
  rw [List.filterMap_flatMap]
  congr 1
  funext r
  by_cases hb : structBeq l r = false
  · by_cases hd : has_default_derive l
    · simp [hb, hd, generate_move_corresponding_impl, generate_from_impl]
    · simp [hb, hd, generate_move_corresponding_impl]
  · simp [hb]

/-- Struct items with distinct identifiers are structurally unequal. -/
theorem structBeq_of_ident_ne {l r : ItemStruct} (h : l.ident ≠ r.ident) :
    structBeq l r = false := by
  cases hb : structBeq l r with
  | false => rfl
  | true => exact absurd (structBeq_ident hb) h

theorem pairList_inner_count (p : ItemStruct → Bool) (l : ItemStruct)
    (T : List ItemStruct) (a b : String) (hab : a ≠ b) :
    ((T.flatMap fun r =>
        if structBeq l r = false then
          (if p l = true then [(l.ident, r.ident)] else [])
        else []).count (a, b))
      = if l.ident = a ∧ p l = true then (T.map ItemStruct.ident).count b else 0 := by
  induction T with
  | nil => simp
  | cons r T ih =>
    rw [List.flatMap_cons, List.count_append, ih, List.map_cons, List.count_cons]
    by_cases hla : l.ident = a
    · by_cases hp : p l = true
      · by_cases hrb : r.ident = b
        · have hbeq : structBeq l r = false := by
            refine structBeq_of_ident_ne ?_
            rw [hla, hrb]
            exact hab
          simp [hbeq, hp, hla, hrb, List.count_singleton]
          omega
        · by_cases hbeq : structBeq l r = false
          · simp [hbeq, hp, hla, hrb, List.count_singleton]
          · simp [hbeq, hp, hla, hrb]
      · simp [hp, hla]
    · by_cases hp : p l = true
      · by_cases hbeq : structBeq l r = false
        · simp [hbeq, hp, hla, List.count_singleton]
        · simp [hbeq, hp, hla]
      · simp [hp, hla]

theorem pairList_count_ne (p : ItemStruct → Bool) (S T : List ItemStruct)
    (a b : String) (hab : a ≠ b) :
    (pairList p S T).count (a, b)
      = S.countP (fun l => (l.ident == a) && p l) * (T.map ItemStruct.ident).count b := by
  induction S with
  | nil => simp [pairList]
  | cons l S ih =>
    rw [pairList, List.flatMap_cons, List.count_append]
    rw [show (S.flatMap fun l => T.flatMap fun r =>
          if structBeq l r = false then
            (if p l = true then [(l.ident, r.ident)] else [])
          else []) = pairList p S T from rfl, ih]
    rw [pairList_inner_count p l T a b hab, List.countP_cons]
    by_cases hla : l.ident = a
    · by_cases hp : p l = true
      · simp only [hla, hp, and_self, if_pos, beq_self_eq_true, Bool.and_true]
        ring
      · simp [hla, hp]
    · simp [hla]

/-- With pairwise distinct struct identifiers no diagonal pair is ever
emitted: a left and a right struct carrying the same identifier are the
same struct, and the structural inequality guard rejects the pair. -/
theorem pairList_count_diag (p : ItemStruct → Bool) (S : List ItemStruct)
    (hN : (S.map ItemStruct.ident).Nodup) (a : String) :
    (pairList p S S).count (a, a) = 0 := by
  rw [List.count_eq_zero]
  intro hmem
  rw [pairList] at hmem
  rcases List.mem_flatMap.mp hmem with ⟨l, hl, hmem2⟩
  rcases List.mem_flatMap.mp hmem2 with ⟨r, hr, hmem3⟩
  by_cases hbeq : structBeq l r = false
  · rw [if_pos hbeq] at hmem3
    by_cases hp : p l = true
    · rw [if_pos hp] at hmem3
      simp only [List.mem_singleton, Prod.mk.injEq] at hmem3
      have hlr : l = r := List.inj_on_of_nodup_map hN hl hr
        (hmem3.1.symm.trans hmem3.2)
      rw [hlr] at hbeq
      simp [structBeq_refl] at hbeq
    · rw [if_neg hp] at hmem3
      simp at hmem3
  · rw [if_neg hbeq] at hmem3
    simp at hmem3

/-- With pairwise distinct struct identifiers, a member struct matches the
identifier test exactly once. -/
theorem countP_ident_eq_one {S : List ItemStruct} {l : ItemStruct}
    (hN : (S.map ItemStruct.ident).Nodup) (hl : l ∈ S) (p : ItemStruct → Bool)
    (hp : p l = true) :
    S.countP (fun x => (x.ident == l.ident) && p x) = 1 := by
  induction S with
  | nil => simp at hl
  | cons x S ih =>
    rw [List.map_cons, List.nodup_cons] at hN
    rw [List.countP_cons]
    rcases List.mem_cons.mp hl with rfl | hmem
    · have hzero : S.countP (fun x => (x.ident == l.ident) && p x) = 0 := by
        refine List.countP_eq_zero.mpr fun y hy hc => ?_
        have : y.ident = l.ident := beq_iff_eq.mp (Bool.and_elim_left hc)
        exact hN.1 (this ▸ List.mem_map.mpr ⟨y, hy, rfl⟩)
      simp [hzero, hp]
    · have hx : ((x.ident == l.ident) && p x) = false := by
        have hne : x.ident ≠ l.ident := by
          intro heq
          exact hN.1 (heq ▸ List.mem_map.mpr ⟨l, hmem, rfl⟩)
        simp [hne]
      rw [hx, if_neg (by simp), ih hN.2 hmem]

/-- With pairwise distinct struct identifiers, a member struct is
structurally equal to exactly one entry of the list: itself. -/
theorem countP_structBeq_eq_one {S : List ItemStruct} {l : ItemStruct}
    (hN : (S.map ItemStruct.ident).Nodup) (hl : l ∈ S) :
    S.countP (fun r => structBeq l r) = 1 := by
  induction S with
  | nil => simp at hl
  | cons x S ih =>
    rw [List.map_cons, List.nodup_cons] at hN
    rw [List.countP_cons]
    rcases List.mem_cons.mp hl with rfl | hmem
    · have hzero : S.countP (fun r => structBeq l r) = 0 := by
        refine List.countP_eq_zero.mpr fun y hy hc => ?_
        exact hN.1 (structBeq_ident hc ▸ List.mem_map.mpr ⟨y, hy, rfl⟩)
      simp [hzero, structBeq_refl]
    · have hx : structBeq l x = false := by
        refine structBeq_of_ident_ne fun heq => ?_
        exact hN.1 (heq ▸ List.mem_map.mpr ⟨l, hmem, rfl⟩)
      rw [hx, if_neg (by simp), ih hN.2 hmem]


/-- The move pair list in its simplified form: the left-struct predicate of
`movePairs` is constantly true. -/
theorem pairList_true (S T : List ItemStruct) :
    pairList (fun _ => true) S T
      = S.flatMap fun l =>
          T.flatMap fun r =>
            if structBeq l r = false then [(l.ident, r.ident)] else [] := by
  simp [pairList]

theorem pairList_inner_length (l : ItemStruct) (T : List ItemStruct) :
    (T.flatMap fun r =>
        if structBeq l r = false then [(l.ident, r.ident)] else []).length
        + T.countP (fun r => structBeq l r)
      = T.length := by
  induction T with
  | nil => simp
  | cons r T ih =>
    rw [List.flatMap_cons, List.length_append, List.countP_cons]
    by_cases hbeq : structBeq l r = false
    · simp [hbeq] at ih ⊢
      omega
    · have htrue : structBeq l r = true := by simpa using hbeq
      simp [htrue] at ih ⊢
      omega

/-- Length of the move pair list: every struct pairs with every struct but
itself. -/
theorem pairList_true_length (S : List ItemStruct)
    (hN : (S.map ItemStruct.ident).Nodup) :
    (pairList (fun _ => true) S S).length = S.length * (S.length - 1) := by
  rw [pairList_true, List.length_flatMap]
  have hmap :
      List.map
          (List.length ∘ fun l =>
            S.flatMap fun r =>
              if structBeq l r = false then [(l.ident, r.ident)] else []) S
        = List.map (Function.const ItemStruct (S.length - 1)) S := by
    refine List.map_congr_left fun l hl => ?_
    have h1 := pairList_inner_length l S
    have h2 := countP_structBeq_eq_one hN hl
    have h3 : 1 ≤ S.length := List.length_pos.mpr (by rintro rfl; simp at hl)
    simp only [Function.comp_apply, Function.const_apply]
    omega
  rw [hmap, List.map_const, List.sum_replicate, smul_eq_mul]

/-- Counting a member of a duplicate-free list finds it exactly once. -/
theorem count_eq_one_of_mem' {α : Type _} [BEq α] [LawfulBEq α] {a : α}
    {l : List α} (hN : l.Nodup) (ha : a ∈ l) : l.count a = 1 := by
  induction l with
  | nil => simp at ha
  | cons x l ih =>
    rw [List.nodup_cons] at hN
    rw [List.count_cons]
    rcases List.mem_cons.mp ha with rfl | hmem
    · rw [List.count_eq_zero.mpr hN.1, if_pos (beq_self_eq_true a)]
    · have hne : ¬(x == a) = true := by
        simp only [beq_iff_eq]
        rintro rfl
        exact hN.1 hmem
      rw [ih hN.2 hmem, if_neg hne]

/-! ## Claim C1 -/

/-- Claim C1: for every scope and every ordered pair of distinct eligible
struct declarations `(L, R)` with unique names, the generator emits exactly
one `MoveCorresponding` routine associated with `(L, R)`; none is emitted
for a self pair, and over `N` eligible declarations exactly `N * (N - 1)`
such routines are emitted. -/
theorem claim_C1_one_move_routine_per_pair (items : List Item)
    (hN : ((get_structs items).map ItemStruct.ident).Nodup) :
    (∀ L ∈ get_structs items, ∀ R ∈ get_structs items, L.ident ≠ R.ident →
        (movePairs (derive_corresponding items)).count (L.ident, R.ident) = 1)
      ∧ (∀ a : String, (movePairs (derive_corresponding items)).count (a, a) = 0)
      ∧ (movePairs (derive_corresponding items)).length
          = (get_structs items).length * ((get_structs items).length - 1) := by
  refine ⟨?_, ?_, ?_⟩
  · intro L hL R hR hne
    rw [movePairs_derive, pairList_count_ne _ _ _ _ _ hne]
    rw [countP_ident_eq_one hN hL (fun _ => true) rfl, one_mul]
    exact count_eq_one_of_mem' hN (List.mem_map.mpr ⟨R, hR, rfl⟩)
  · intro a
    rw [movePairs_derive]
    exact pairList_count_diag _ _ hN a
  · rw [movePairs_derive]
    exact pairList_true_length _ hN

/-- The path type `u8`. -/
def u8Ty : Ty := .path [.mk "u8" .none]

/-- The path type `Option<u8>`. -/
def optU8Ty : Ty := .path [.mk "Option" (.angleBracketed [.type u8Ty])]

/-- Witness module for claim C1: two plain structs `A` and `B`. -/
def itemsC1 : List Item :=
  [.struct ⟨"A", [], [⟨some "a", u8Ty⟩]⟩, .struct ⟨"B", [], [⟨some "a", u8Ty⟩]⟩]

theorem claim_C1_witness :
    ((get_structs itemsC1).map ItemStruct.ident).Nodup
      ∧ (movePairs (derive_corresponding itemsC1)).count ("A", "B") = 1
      ∧ (movePairs (derive_corresponding itemsC1)).count ("A", "A") = 0
      ∧ (movePairs (derive_corresponding itemsC1)).length
          = (get_structs itemsC1).length * ((get_structs itemsC1).length - 1) := by
  have hN : ((get_structs itemsC1).map ItemStruct.ident).Nodup := by
    simp [itemsC1, get_structs]
  have h := claim_C1_one_move_routine_per_pair itemsC1 hN
  refine ⟨hN, ?_, h.2.1 "A", h.2.2⟩
  have hA : (⟨"A", [], [⟨some "a", u8Ty⟩]⟩ : ItemStruct) ∈ get_structs itemsC1 := by
    simp [itemsC1, get_structs]
  have hB : (⟨"B", [], [⟨some "a", u8Ty⟩]⟩ : ItemStruct) ∈ get_structs itemsC1 := by
    simp [itemsC1, get_structs]
  exact h.1 _ hA _ hB (by decide)

/-! ## Claim C6 -/

/-- Claim C6: for every ordered pair of distinct eligible declarations
`(L, R)`, a `From` routine targeting `L` is emitted exactly when `L`
carries the `derive(Default)` marker (the capability of `R` is
irrelevant, and no self pair is emitted); the emitted routine runs the
`MoveCorresponding` routine of `(L, R)` on the default instance of `L`
with the source value and returns the result. -/
theorem claim_C6_from_impl_iff_default (items : List Item)
    (hN : ((get_structs items).map ItemStruct.ident).Nodup) :
    (∀ L ∈ get_structs items, ∀ R ∈ get_structs items, L.ident ≠ R.ident →
        (fromPairs (derive_corresponding items)).count (L.ident, R.ident)
          = if has_default_derive L then 1 else 0)
      ∧ (∀ a : String, (fromPairs (derive_corresponding items)).count (a, a) = 0)
      ∧ (∀ (l r : ItemStruct) (dflt rhs : StructVal),
          from_run l r dflt rhs = move_corresponding_run l r dflt rhs) := by
  refine ⟨?_, ?_, fun l r dflt rhs => rfl⟩
  · intro L hL R hR hne
    rw [fromPairs_derive, pairList_count_ne _ _ _ _ _ hne]
    by_cases hd : has_default_derive L = true
    · rw [countP_ident_eq_one hN hL has_default_derive hd, one_mul, if_pos hd]
      exact count_eq_one_of_mem' hN (List.mem_map.mpr ⟨R, hR, rfl⟩)
    · have hzero : (get_structs items).countP
          (fun x => (x.ident == L.ident) && has_default_derive x) = 0 := by
        refine List.countP_eq_zero.mpr fun y hy hc => ?_
        have hyL : y = L :=
          List.inj_on_of_nodup_map hN hy hL (beq_iff_eq.mp (Bool.and_elim_left hc))
        exact hd (hyL ▸ Bool.and_elim_right hc)
      rw [hzero, zero_mul, if_neg hd]
  · intro a
    rw [fromPairs_derive]
    exact pairList_count_diag _ _ hN a

/-- The attribute `#[derive(Debug, Default)]`. -/
def deriveDefaultAttr : Attribute' :=
  ⟨[.mk "derive" .none], [.group [.ident "Debug", .other, .ident "Default"]]⟩

/-- Witness module for claim C6: struct `A` derives `Default`, struct `B`
does not. -/
def itemsC6 : List Item :=
  [.struct ⟨"A", [deriveDefaultAttr], [⟨some "a", u8Ty⟩]⟩,
   .struct ⟨"B", [], [⟨some "a", u8Ty⟩]⟩]

theorem claim_C6_witness :
    ((get_structs itemsC6).map ItemStruct.ident).Nodup
      ∧ (fromPairs (derive_corresponding itemsC6)).count ("A", "B") = 1
      ∧ (fromPairs (derive_corresponding itemsC6)).count ("B", "A") = 0
      ∧ (fromPairs (derive_corresponding itemsC6)).count ("A", "A") = 0
      ∧ from_run ⟨"A", [deriveDefaultAttr], [⟨some "a", u8Ty⟩]⟩
            ⟨"B", [], [⟨some "a", u8Ty⟩]⟩ (fun _ => .plain 0) (fun _ => .plain 4)
          = move_corresponding_run ⟨"A", [deriveDefaultAttr], [⟨some "a", u8Ty⟩]⟩
              ⟨"B", [], [⟨some "a", u8Ty⟩]⟩ (fun _ => .plain 0) (fun _ => .plain 4) := by
  have hN : ((get_structs itemsC6).map ItemStruct.ident).Nodup := by
    simp [itemsC6, get_structs]
  have h := claim_C6_from_impl_iff_default itemsC6 hN
  have hA : (⟨"A", [deriveDefaultAttr], [⟨some "a", u8Ty⟩]⟩ : ItemStruct)
      ∈ get_structs itemsC6 := by
    simp [itemsC6, get_structs]
  have hB : (⟨"B", [], [⟨some "a", u8Ty⟩]⟩ : ItemStruct) ∈ get_structs itemsC6 := by
    simp [itemsC6, get_structs]
  refine ⟨hN, ?_, ?_, h.2.1 "A", h.2.2 _ _ _ _⟩
  · have := h.1 _ hA _ hB (by decide)
    rw [if_pos (by decide)] at this
    exact this
  · have := h.1 _ hB _ hA (by decide)
    rw [if_neg (by decide)] at this
    exact this

/-! ## Claims C2, C3, C4: runtime contract of the four policies -/

/-- Claim C2: for a matched field pair with a non-optional source, the
generated routine unconditionally overwrites the target field: with shape
`(false, false)` the target field equals the original source field
afterwards, and with shape `(true, false)` the target field is present
afterwards with inner value equal to the source field. -/
theorem claim_C2_plain_source_overwrites
    (l r : ItemStruct) (lf rf : Field') (n t : String)
    (hlf : lf ∈ l.fields) (hrf : rf ∈ r.fields)
    (hNl : (l.fields.map Field'.ident).Nodup)
    (hNr : (r.fields.map Field'.ident).Nodup)
    (hlfn : lf.ident = some n) (hrfn : rf.ident = some n)
    (hr : get_type rf.ty = some ⟨t, false⟩) :
    (get_type lf.ty = some ⟨t, false⟩ →
        ∀ s rhs : StructVal,
          move_corresponding_run l r s rhs (some n) = rhs (some n))
      ∧ (get_type lf.ty = some ⟨t, true⟩ →
          ∀ (s rhs : StructVal) (v : Nat), rhs (some n) = .plain v →
            move_corresponding_run l r s rhs (some n) = .opt (some v)) := by
  constructor
  · intro hl s rhs
    rw [move_corresponding_run_at hlf hrf hNl hNr hlfn hrfn,
      field_statements_of_match hlfn hrfn hl hr, runAt_single]
    rfl
  · intro hl s rhs v hv
    rw [move_corresponding_run_at hlf hrf hNl hNr hlfn hrfn,
      field_statements_of_match hlfn hrfn hl hr, runAt_single]
    simp [stmtEffect, hv, FieldVal.plainVal]

/-- Witness structs for claim C2. -/
def wA2 : ItemStruct := ⟨"A", [], [⟨some "a", u8Ty⟩, ⟨some "b", optU8Ty⟩]⟩

/-- Witness source struct for claim C2. -/
def wB2 : ItemStruct := ⟨"B", [], [⟨some "a", u8Ty⟩, ⟨some "b", u8Ty⟩]⟩

theorem claim_C2_witness :
    move_corresponding_run wA2 wB2 (fun _ => .plain 1) (fun _ => .plain 7) (some "a")
        = .plain 7
      ∧ move_corresponding_run wA2 wB2 (fun _ => .plain 1) (fun _ => .plain 7) (some "b")
        = .opt (some 7) := by
  constructor
  · have h := (claim_C2_plain_source_overwrites wA2 wB2 ⟨some "a", u8Ty⟩
      ⟨some "a", u8Ty⟩ "a" "u8" (by simp [wA2]) (by simp [wB2]) (by decide)
      (by decide) rfl rfl rfl).1 rfl (fun _ => .plain 1) (fun _ => .plain 7)
    simpa using h
  · exact (claim_C2_plain_source_overwrites wA2 wB2 ⟨some "b", optU8Ty⟩
      ⟨some "b", u8Ty⟩ "b" "u8" (by simp [wA2]) (by simp [wB2]) (by decide)
      (by decide) rfl rfl rfl).2 rfl (fun _ => .plain 1) (fun _ => .plain 7) 7 rfl

/-- Claim C3: for a matched field pair of shape `(false, true)` (plain
target, optional source), the routine leaves the target field unchanged
when the source field is absent, and assigns the unwrapped inner value
when the source field is present. -/
theorem claim_C3_optional_source_plain_target
    (l r : ItemStruct) (lf rf : Field') (n t : String)
    (hlf : lf ∈ l.fields) (hrf : rf ∈ r.fields)
    (hNl : (l.fields.map Field'.ident).Nodup)
    (hNr : (r.fields.map Field'.ident).Nodup)
    (hlfn : lf.ident = some n) (hrfn : rf.ident = some n)
    (hl : get_type lf.ty = some ⟨t, false⟩) (hr : get_type rf.ty = some ⟨t, true⟩) :
    (∀ s rhs : StructVal, rhs (some n) = .opt none →
        move_corresponding_run l r s rhs (some n) = s (some n))
      ∧ (∀ (s rhs : StructVal) (v : Nat), rhs (some n) = .opt (some v) →
          move_corresponding_run l r s rhs (some n) = .plain v) := by
  constructor
  · intro s rhs hv
    rw [move_corresponding_run_at hlf hrf hNl hNr hlfn hrfn,
      field_statements_of_match hlfn hrfn hl hr, runAt_single]
    simp [stmtEffect, hv]
  · intro s rhs v hv
    rw [move_corresponding_run_at hlf hrf hNl hNr hlfn hrfn,
      field_statements_of_match hlfn hrfn hl hr, runAt_single]
    simp [stmtEffect, hv]

/-- Witness target struct for claim C3. -/
def wA3 : ItemStruct := ⟨"A", [], [⟨some "c", u8Ty⟩]⟩

/-- Witness source struct for claim C3. -/
def wB3 : ItemStruct := ⟨"B", [], [⟨some "c", optU8Ty⟩]⟩

theorem claim_C3_witness :
    move_corresponding_run wA3 wB3 (fun _ => .plain 3) (fun _ => .opt none) (some "c")
        = .plain 3
      ∧ move_corresponding_run wA3 wB3 (fun _ => .plain 3) (fun _ => .opt (some 5))
          (some "c") = .plain 5 := by
  constructor
  · have h := (claim_C3_optional_source_plain_target wA3 wB3 ⟨some "c", u8Ty⟩
      ⟨some "c", optU8Ty⟩ "c" "u8" (by simp [wA3]) (by simp [wB3]) (by decide)
      (by decide) rfl rfl rfl rfl).1 (fun _ => .plain 3) (fun _ => .opt none) rfl
    simpa using h
  · exact (claim_C3_optional_source_plain_target wA3 wB3 ⟨some "c", u8Ty⟩
      ⟨some "c", optU8Ty⟩ "c" "u8" (by simp [wA3]) (by simp [wB3]) (by decide)
      (by decide) rfl rfl rfl rfl).2 (fun _ => .plain 3) (fun _ => .opt (some 5)) 5 rfl

/-- Claim C4: for a matched field pair of shape `(true, true)` (optional
target, optional source), the routine leaves the target field unchanged
when the source field is absent, and copies the whole source optional
value, presence included, when the source field is present. -/
theorem claim_C4_optional_source_optional_target
    (l r : ItemStruct) (lf rf : Field') (n t : String)
    (hlf : lf ∈ l.fields) (hrf : rf ∈ r.fields)
    (hNl : (l.fields.map Field'.ident).Nodup)
    (hNr : (r.fields.map Field'.ident).Nodup)
    (hlfn : lf.ident = some n) (hrfn : rf.ident = some n)
    (hl : get_type lf.ty = some ⟨t, true⟩) (hr : get_type rf.ty = some ⟨t, true⟩) :
    (∀ s rhs : StructVal, rhs (some n) = .opt none →
        move_corresponding_run l r s rhs (some n) = s (some n))
      ∧ (∀ (s rhs : StructVal) (v : Nat), rhs (some n) = .opt (some v) →
          move_corresponding_run l r s rhs (some n) = rhs (some n)) := by
  constructor
  · intro s rhs hv
    rw [move_corresponding_run_at hlf hrf hNl hNr hlfn hrfn,
      field_statements_of_match hlfn hrfn hl hr, runAt_single]
    simp [stmtEffect, hv]
  · intro s rhs v hv
    rw [move_corresponding_run_at hlf hrf hNl hNr hlfn hrfn,
      field_statements_of_match hlfn hrfn hl hr, runAt_single]
    simp [stmtEffect, hv]

/-- Witness target struct for claim C4. -/
def wA4 : ItemStruct := ⟨"A", [], [⟨some "d", optU8Ty⟩]⟩

/-- Witness source struct for claim C4. -/
def wB4 : ItemStruct := ⟨"B", [], [⟨some "d", optU8Ty⟩]⟩

theorem claim_C4_witness :
    move_corresponding_run wA4 wB4 (fun _ => .opt (some 2)) (fun _ => .opt none)
        (some "d") = .opt (some 2)
      ∧ move_corresponding_run wA4 wB4 (fun _ => .opt (some 2)) (fun _ => .opt (some 9))
          (some "d") = .opt (some 9) := by
  constructor
  · have h := (claim_C4_optional_source_optional_target wA4 wB4 ⟨some "d", optU8Ty⟩
      ⟨some "d", optU8Ty⟩ "d" "u8" (by simp [wA4]) (by simp [wB4]) (by decide)
      (by decide) rfl rfl rfl rfl).1 (fun _ => .opt (some 2)) (fun _ => .opt none) rfl
    simpa using h
  · have h := (claim_C4_optional_source_optional_target wA4 wB4 ⟨some "d", optU8Ty⟩
      ⟨some "d", optU8Ty⟩ "d" "u8" (by simp [wA4]) (by simp [wB4]) (by decide)
      (by decide) rfl rfl rfl rfl).2 (fun _ => .opt (some 2)) (fun _ => .opt (some 9)) 9 rfl
    simpa using h

/-! ## Claim C5: the no-absent-write invariant, and its violation

The crate documentation promises that no generated routine can ever set an
optional field to the absent state.  The classifier, however, reads only
the first path segment, so a fully qualified `std::option::Option<u8>`
field classifies as the plain base type `std`; two such same-named fields
match with policy `(false, false)` and the generated statement
`self.a = rhs.a ;` copies an absent source value into the target. -/

/-- The fully qualified path type `std::option::Option<u8>`. -/
def stdOptionU8Ty : Ty :=
  .path [.mk "std" .none, .mk "option" .none,
    .mk "Option" (.angleBracketed [.type u8Ty])]

/-- Target struct of the violating scope. -/
def bugA : ItemStruct := ⟨"A", [], [⟨some "a", stdOptionU8Ty⟩]⟩

/-- Source struct of the violating scope. -/
def bugB : ItemStruct := ⟨"B", [], [⟨some "a", stdOptionU8Ty⟩]⟩

/-- Claim C5 fails on the code: for the scope `{A, B}` with
`a : std::option::Option<u8>` on both sides, the pair is matched with the
unconditional policy `(false, false)`, and running the generated routine
with an absent source field writes the absent value over a present target
field. -/
theorem claim_C5_absent_value_written :
    get_type stdOptionU8Ty = some ⟨"std", false⟩
      ∧ generate_statements bugA bugB = [.assign (some "a") (some "a")]
      ∧ move_corresponding_run bugA bugB
          (fun _ => .opt (some 5)) (fun _ => .opt none) (some "a")
        = .opt none := by
  refine ⟨rfl, rfl, rfl⟩

/-! ## Claim C7: double-wrapped optionals -/

/-- The type `Option<Option<v>>` for an arbitrary inner type `v`. -/
def optOptTy (v : Ty) : Ty :=
  .path [.mk "Option"
    (.angleBracketed [.type (.path [.mk "Option" (.angleBracketed [.type v])])])]

/-- Claim C7: a doubly wrapped optional classifies as base name `Option`
with the optional flag set, the inner optional is not unwrapped again, and
two same-named fields of such types match with policy `(true, true)`,
producing the conditional whole-value assignment. -/
theorem claim_C7_double_optional_outer_wrapper :
    ∀ (v w : Ty) (n : String),
      get_type (optOptTy v) = some ⟨"Option", true⟩
        ∧ field_statements ⟨some n, optOptTy v⟩ ⟨some n, optOptTy w⟩
            = [.ifSomeAssign (some n) (some n)] := by
  intro v w n
  refine ⟨rfl, ?_⟩
  simpa using @field_statements_of_match ⟨some n, optOptTy v⟩
    ⟨some n, optOptTy w⟩ n "Option" true true rfl rfl rfl rfl

/-! ## Claim C8: all source candidates are scanned, not just the first -/

/-- Left struct of the C8 counterexample scope. -/
def c8L : ItemStruct := ⟨"L", [], [⟨some "x", u8Ty⟩]⟩

/-- Right struct of the C8 counterexample scope, declaring two fields that
both carry the name `x` and both match `L.x` structurally. -/
def c8R : ItemStruct := ⟨"R", [], [⟨some "x", u8Ty⟩, ⟨some "x", optU8Ty⟩]⟩

/-- Counterexample to claim C8 as stated: the inner loop has no early
exit, so when two fields of `R` match the single field `x` of `L`, two
field actions are emitted for that one left field, not at most one. -/
theorem claim_C8_counterexample :
    (generate_statements c8L c8R).length = 2
      ∧ (generate_statements c8L c8R).countP (fun st => st.target == some "x") = 2 := by
  refine ⟨rfl, rfl⟩

/-- Claim C8 amended: the generator emits one field action for every
matching `(lf, rf)` pair and scans all `rf` candidates without stopping;
when the fields of `R` carry pairwise distinct identifiers, the actions
emitted for a left field are exactly those of its unique same-named
counterpart, which is at most one action. -/
theorem claim_C8_amended_unique_names_single_action
    (lf : Field') (r : ItemStruct) (rf : Field') (n : String)
    (hNr : (r.fields.map Field'.ident).Nodup)
    (hrf : rf ∈ r.fields) (hlfn : lf.ident = some n) (hrfn : rf.ident = some n) :
    (r.fields.flatMap fun r_field => field_statements lf r_field)
        = field_statements lf rf
      ∧ (field_statements lf rf).length ≤ 1 := by
  constructor
  · exact inner_flatMap_eq hlfn r.fields rf hrf hNr hrfn
  · unfold field_statements
    split
    · split
      · split
        · split <;> simp
        · simp
      · simp
    · simp

theorem claim_C8_witness :
    ((⟨"R", [], [⟨some "x", u8Ty⟩, ⟨some "y", optU8Ty⟩]⟩ : ItemStruct).fields.flatMap
          fun r_field => field_statements ⟨some "x", u8Ty⟩ r_field)
        = field_statements ⟨some "x", u8Ty⟩ ⟨some "x", u8Ty⟩
      ∧ (field_statements ⟨some "x", u8Ty⟩ ⟨some "x", u8Ty⟩).length ≤ 1 :=
  claim_C8_amended_unique_names_single_action ⟨some "x", u8Ty⟩
    ⟨"R", [], [⟨some "x", u8Ty⟩, ⟨some "y", optU8Ty⟩]⟩ ⟨some "x", u8Ty⟩ "x"
    (by decide) (by simp) rfl rfl

/-! ## Claim C9: non-matches are silent no-ops -/

/-- Claim C9: if at a field name `n` no matching pair exists between `l`
and `r` — the name occurs on one side only, or a type does not classify,
or the classified base names differ — then no emitted statement writes
field `n`, and every run of the generated routine leaves the target field
`n` unchanged. -/
theorem claim_C9_unmatched_field_unchanged (l r : ItemStruct) (n : String)
    (h : ∀ lf ∈ l.fields, lf.ident = some n →
      ∀ rf ∈ r.fields, rf.ident = some n →
        get_type lf.ty = none ∨ get_type rf.ty = none ∨
          (∀ lt rt : OptionType, get_type lf.ty = some lt →
            get_type rf.ty = some rt → lt.ident ≠ rt.ident)) :
    ∀ s rhs : StructVal, move_corresponding_run l r s rhs (some n) = s (some n) := by
  intro s rhs
  rw [move_corresponding_run, execStmts_apply]
  have hfil : (generate_statements l r).filter (fun st => st.target == some n)
      = [] := by
    refine List.filter_eq_nil_iff.mpr fun st hst => ?_
    simp only [beq_iff_eq]
    intro htgt
    rw [generate_statements] at hst
    rcases List.mem_flatMap.mp hst with ⟨lf, hlf, hst2⟩
    rcases List.mem_flatMap.mp hst2 with ⟨rf, hrf, hst3⟩
    have htar := field_statements_target lf rf st hst3
    have hlfn : lf.ident = some n := by rw [← htar, htgt]
    rcases field_statements_nonempty hst3 with ⟨lt, rt, hgl, hgr, hide, hbase⟩
    have hrfn : rf.ident = some n := hide ▸ hlfn
    rcases h lf hlf hlfn rf hrf hrfn with h1 | h1 | h1
    · rw [hgl] at h1
      exact Option.noConfusion h1
    · rw [hgr] at h1
      exact Option.noConfusion h1
    · exact h1 lt rt hgl hgr hbase
  rw [hfil, runAt_nil]

/-- The path type `u16`. -/
def u16Ty : Ty := .path [.mk "u16" .none]

/-- Witness target struct for claim C9: `b` is a `u8`. -/
def wA9 : ItemStruct := ⟨"A", [], [⟨some "a", u8Ty⟩, ⟨some "b", u8Ty⟩]⟩

/-- Witness source struct for claim C9: `b` is a `u16`, so the base names
at `b` differ and the pair is not matched. -/
def wB9 : ItemStruct := ⟨"B", [], [⟨some "a", u8Ty⟩, ⟨some "b", u16Ty⟩]⟩

theorem claim_C9_witness :
    move_corresponding_run wA9 wB9 (fun _ => .plain 1) (fun _ => .plain 2) (some "b")
      = .plain 1 := by
  have h := claim_C9_unmatched_field_unchanged wA9 wB9 "b" ?_
      (fun _ => .plain 1) (fun _ => .plain 2)
  · simpa using h
  · intro lf hlf hlfn rf hrf hrfn
    refine Or.inr (Or.inr fun lt rt hgl hgr => ?_)
    simp [wA9] at hlf
    simp [wB9] at hrf
    rcases hlf with rfl | rfl
    · exact absurd hlfn (by decide)
    · rcases hrf with rfl | rfl
      · exact absurd hrfn (by decide)
      · rw [show get_type u8Ty = some ⟨"u8", false⟩ from rfl] at hgl
        rw [show get_type u16Ty = some ⟨"u16", false⟩ from rfl] at hgr
        cases hgl
        cases hgr
        decide

/-! ## Claim C10: the classifier reads the first path segment -/

/-- The classification of a path type depends only on the first path
segment. -/
theorem get_type_head (seg : PathSegment) (rest : List PathSegment) :
    get_type (.path (seg :: rest)) = get_type (.path [seg]) := rfl

/-- The two-segment path type `Option::Foo`, whose first segment is named
`Option` but carries no angle-bracketed arguments. -/
def optBareFooTy : Ty := .path [.mk "Option" .none, .mk "Foo" .none]

/-- Left struct of the C10 counterexample scope. -/
def c10L : ItemStruct := ⟨"L", [], [⟨some "f", optBareFooTy⟩]⟩

/-- Right struct of the C10 counterexample scope. -/
def c10R : ItemStruct := ⟨"R", [], [⟨some "f", optBareFooTy⟩]⟩

/-- Counterexample to claim C10 as stated: the same-named fields
`f : Option::Foo` of `L` and `R` have identical type paths, hence the same
first segment, yet the classifier returns nothing for them — the first
segment is named `Option` but has no angle-bracketed path argument — and
the pair is not matched: no statement at all is generated. -/
theorem claim_C10_counterexample :
    get_type optBareFooTy = none ∧ generate_statements c10L c10R = [] := by
  refine ⟨rfl, rfl⟩

/-- Claim C10 amended: the classifier uses only the first (leftmost) path
segment, so `std::option::Option<u8>` classifies as the non-optional base
`std`; two same-named fields whose type paths begin with the same first
segment receive the same classification and are matched exactly when that
shared classification succeeds, in which case the policy is determined by
the shared optionality flag. -/
theorem claim_C10_first_segment_classification :
    (∀ (seg : PathSegment) (rest : List PathSegment),
        get_type (.path (seg :: rest)) = get_type (.path [seg]))
      ∧ get_type stdOptionU8Ty = some ⟨"std", false⟩
      ∧ (∀ (n : String) (seg : PathSegment) (rest1 rest2 : List PathSegment),
          get_type (.path (seg :: rest1)) = none →
            field_statements ⟨some n, .path (seg :: rest1)⟩
              ⟨some n, .path (seg :: rest2)⟩ = [])
      ∧ (∀ (n t : String) (o : Bool) (seg : PathSegment)
            (rest1 rest2 : List PathSegment),
          get_type (.path (seg :: rest1)) = some ⟨t, o⟩ →
            field_statements ⟨some n, .path (seg :: rest1)⟩
              ⟨some n, .path (seg :: rest2)⟩
              = [if o then Stmt.ifSomeAssign (some n) (some n)
                 else Stmt.assign (some n) (some n)]) := by
  refine ⟨fun seg rest => rfl, rfl, ?_, ?_⟩
  · intro n seg rest1 rest2 hnone
    unfold field_statements
    have hnone1 : get_type (Field'.ty ⟨some n, .path (seg :: rest1)⟩) = none := hnone
    rw [hnone1]
  · intro n t o seg rest1 rest2 hsome
    have hr2 : get_type (Ty.path (seg :: rest2)) = some ⟨t, o⟩ := by
      rw [get_type_head seg rest2, ← get_type_head seg rest1, hsome]
    have h := @field_statements_of_match ⟨some n, .path (seg :: rest1)⟩
      ⟨some n, .path (seg :: rest2)⟩ n t o o rfl rfl hsome hr2
    cases o <;> simpa using h

theorem claim_C10_witness :
    get_type (Ty.path [.mk "std" .none, .mk "x" .none])
        = get_type (Ty.path [.mk "std" .none])
      ∧ get_type stdOptionU8Ty = some ⟨"std", false⟩
      ∧ field_statements ⟨some "f", optBareFooTy⟩ ⟨some "f", optBareFooTy⟩ = []
      ∧ field_statements ⟨some "g", stdOptionU8Ty⟩
          ⟨some "g", Ty.path [.mk "std" .none, .mk "y" .none]⟩
          = [Stmt.assign (some "g") (some "g")] := by
  have h := claim_C10_first_segment_classification
  refine ⟨h.1 (.mk "std" .none) [.mk "x" .none], h.2.1, ?_, ?_⟩
  · have := h.2.2.1 "f" (.mk "Option" .none) [.mk "Foo" .none] [.mk "Foo" .none] rfl
    simpa [optBareFooTy] using this
  · have := h.2.2.2 "g" "std" false (.mk "std" .none)
      [.mk "option" .none, .mk "Option" (.angleBracketed [.type u8Ty])]
      [.mk "y" .none] rfl
    simpa [stdOptionU8Ty] using this
